import Mathlib

/-!
Verification of the lex.uz listing harvester (`fetch_all_data.py`).

The embedding models strings as `List Char` and network transport as
oracles (`Option`-valued responses).  Pure functions of the source are
translated directly; the pagination loop is translated with an explicit
fuel argument equal to the page budget it enforces.
-/

set_option maxRecDepth 4000

/-- A document record: `{'id', 'title', 'url'}` as built by `parse_html`. -/
structure Doc where
  id : List Char
  title : List Char
  url : List Char
deriving DecidableEq, Repr

/-- One raw regex match of the document-link pattern:
`href="(/(?:uz/|ru/|en/)?docs/(-?\d+))"[^>]*>([^<]+)` — group 1 is `path`,
group 2 is `docId`, group 3 is `title`. -/
structure RawMatch where
  path : List Char
  docId : List Char
  title : List Char
deriving DecidableEq, Repr

/-- Consume a literal, case-sensitively; return the remaining input. -/
def eatLit : List Char → List Char → Option (List Char)
  | [], s => some s
  | _, [] => none
  | c :: cs, x :: xs => if c = x then eatLit cs xs else none

/-- Consume a literal case-insensitively (the pattern carries `re.IGNORECASE`). -/
def eatLitCI : List Char → List Char → Option (List Char)
  | [], s => some s
  | _, [] => none
  | c :: cs, x :: xs => if c.toLower = x.toLower then eatLitCI cs xs else none

def hrefLit : List Char := ("href=\"").toList
def docsLit : List Char := ("docs/").toList
def uzLit : List Char := ("uz/").toList
def ruLit : List Char := ("ru/").toList
def enLit : List Char := ("en/").toList

/-- Match `-?\d+` and return (matched chars, rest). -/
def matchIdPart (s : List Char) : Option (List Char × List Char) :=
  match s with
  | '-' :: rest =>
    let ds := rest.takeWhile Char.isDigit
    if ds.isEmpty then none else some ('-' :: ds, rest.drop ds.length)
  | _ =>
    let ds := s.takeWhile Char.isDigit
    if ds.isEmpty then none else some (ds, s.drop ds.length)

/-- Match `docs/` then the identifier; returns (consumed length, id chars, rest). -/
def tryTail (s : List Char) : Option (Nat × List Char × List Char) :=
  match eatLitCI docsLit s with
  | none => none
  | some s2 =>
    match matchIdPart s2 with
    | none => none
    | some (idc, rest) => some (5 + idc.length, idc, rest)

/-- Finish the pattern after the leading `/` of group 1, with `langLen` chars of
an optional language segment already known to match: `docs/ -?\d+ " [^>]* > [^<]+`. -/
def finishMatch (s2 : List Char) (langLen : Nat) : Option (RawMatch × List Char) :=
  match tryTail (s2.drop langLen) with
  | none => none
  | some (dlen, idc, r1) =>
    match r1 with
    | '"' :: r2 =>
      match r2.dropWhile (· != '>') with
      | '>' :: r3 =>
        let ttl := r3.takeWhile (· != '<')
        if ttl.isEmpty then none
        else some (⟨'/' :: s2.take (langLen + dlen), idc, ttl⟩, r3.dropWhile (· != '<'))
      | _ => none
    | _ => none

/-- The alternation `(?:uz/|ru/|en/)?`, tried left-to-right with the empty
alternative last, each with full backtracking over the pattern's remainder. -/
def matchAfterSlash (s2 : List Char) : Option (RawMatch × List Char) :=
  match (eatLitCI uzLit s2).bind (fun _ => finishMatch s2 3) with
  | some r => some r
  | none =>
    match (eatLitCI ruLit s2).bind (fun _ => finishMatch s2 3) with
    | some r => some r
    | none =>
      match (eatLitCI enLit s2).bind (fun _ => finishMatch s2 3) with
      | some r => some r
      | none => finishMatch s2 0

/-- Attempt the whole pattern at the current position. -/
def matchAt (s : List Char) : Option (RawMatch × List Char) :=
  match eatLitCI hrefLit s with
  | none => none
  | some s1 =>
    match s1 with
    | '/' :: s2 => matchAfterSlash s2
    | _ => none

/-- `re.finditer`: scan left to right, resuming after each match. -/
def scanAux : Nat → List Char → List RawMatch
  | 0, _ => []
  | _, [] => []
  | fuel + 1, s =>
    match matchAt s with
    | some (m, rest) => m :: scanAux fuel rest
    | none => scanAux fuel (s.drop 1)

/-- All matches of the document-link pattern in the markup, in order. -/
def rawMatches (html : List Char) : List RawMatch :=
  scanAux html.length html

/-- Python `str.strip()`: drop leading and trailing whitespace. -/
def strip (s : List Char) : List Char :=
  (((s.dropWhile Char.isWhitespace).reverse).dropWhile Char.isWhitespace).reverse

/-- `title.replace('$', 'USD ')`. -/
def replaceDollar : List Char → List Char
  | [] => []
  | '$' :: rest => ("USD ").toList ++ replaceDollar rest
  | c :: rest => c :: replaceDollar rest

def originLit : List Char := ("https://lex.uz").toList

/-- The record built from one kept match (strip, `$` substitution, absolute url). -/
def mkDoc (m : RawMatch) : Doc :=
  ⟨m.docId, replaceDollar (strip m.title), originLit ++ m.path⟩

/-- The extraction loop of `parse_html`: skip a match whose id was already
seen or whose stripped title is empty, else record the id and append the doc. -/
def parseLoop (seen : List (List Char)) (acc : List Doc) : List RawMatch → List Doc
  | [] => acc
  | m :: ms =>
    let title := strip m.title
    if m.docId ∈ seen ∨ title = [] then parseLoop seen acc ms
    else
      parseLoop (m.docId :: seen)
        (acc ++ [⟨m.docId, replaceDollar title, originLit ++ m.path⟩]) ms

/-- `parse_html(html)`. -/
def parse_html (html : List Char) : List Doc :=
  if html.isEmpty then [] else parseLoop [] [] (rawMatches html)

/-- Substring test (Python `in` on strings, case-sensitive). -/
def hasSub (needle : List Char) : List Char → Bool
  | [] => (eatLit needle []).isSome
  | c :: t => (eatLit needle (c :: t)).isSome || hasSub needle t

def nextMarkerA : List Char := ("ucFoundActsControl$LinkButton1").toList
def nextMarkerB : List Char := ("ucFoundActsControl_LinkButton1").toList

/-- `has_next_page(html)`. -/
def has_next_page (html : List Char) : Bool :=
  hasSub nextMarkerA html || hasSub nextMarkerB html

def vsLit : List Char := ("id=\"__VIEWSTATE\" value=\"").toList
def vsgLit : List Char := ("id=\"__VIEWSTATEGENERATOR\" value=\"").toList
def evLit : List Char := ("id=\"__EVENTVALIDATION\" value=\"").toList

/-- `re.search` for `<literal>([^"]*)"`: at each position try the literal and a
quote-terminated capture, else advance one character. -/
def searchValue (lit : List Char) : Nat → List Char → Option (List Char)
  | 0, _ => none
  | fuel + 1, s =>
    match eatLit lit s with
    | some rest =>
      match rest.dropWhile (· != '"') with
      | '"' :: _ => some (rest.takeWhile (· != '"'))
      | _ =>
        match s with
        | [] => none
        | _ :: t => searchValue lit fuel t
    | none =>
      match s with
      | [] => none
      | _ :: t => searchValue lit fuel t

/-- The dictionary built by `extract_viewstate`: a key is present only when its
pattern matched. -/
structure Hidden where
  viewstate : Option (List Char)
  generator : Option (List Char)
  validation : Option (List Char)
deriving DecidableEq, Repr

/-- `extract_viewstate(html)`. -/
def extract_viewstate (html : List Char) : Hidden :=
  ⟨searchValue vsLit (html.length + 1) html,
   searchValue vsgLit (html.length + 1) html,
   searchValue evLit (html.length + 1) html⟩

/-- Python falsiness of `viewstate.get('__VIEWSTATE')`: the key is missing or
its value is the empty string. -/
def vsFalsy : Option (List Char) → Bool
  | none => true
  | some v => v.isEmpty

/-- The per-page accumulation of `fetch_with_pagination`:
`for doc in docs: if doc['id'] not in seen_ids: add id, append doc, count += 1`.
Returns (seen_ids, all_docs, new_count). -/
def foldDocs (seen : List (List Char)) (acc : List Doc) (c : Nat) :
    List Doc → List (List Char) × List Doc × Nat
  | [] => (seen, acc, c)
  | d :: ds =>
    if d.id ∈ seen then foldDocs seen acc c ds
    else foldDocs (d.id :: seen) (acc ++ [d]) (c + 1) ds

/-- A pagination run's transport: the initial GET response and the response to
the k-th continuation POST (`none` models a request that raises). -/
structure Server where
  get : Option (List Char)
  post : Nat → Option (List Char)

/-- The `while has_next_page(html) and page <= max_pages` loop.  `fuel` is the
number of page slots left in the budget (`max_pages - page + 1`), `pc` the
number of POSTs issued so far; the result pairs the accumulated batch with the
total number of POSTs issued. -/
def fetchLoop (post : Nat → Option (List Char)) :
    Nat → Nat → List (List Char) → List Doc → List Char → List Doc × Nat
  | 0, pc, _, acc, _ => (acc, pc)
  | fuel + 1, pc, seen, acc, html =>
    if has_next_page html then
      if vsFalsy (extract_viewstate html).viewstate then (acc, pc)
      else
        match post pc with
        | none => (acc, pc + 1)
        | some html2 =>
          let r := foldDocs seen acc 0 (parse_html html2)
          if r.2.2 = 0 then (r.2.1, pc + 1)
          else fetchLoop post fuel (pc + 1) r.1 r.2.1 html2
    else (acc, pc)

/-- `MAX_PAGES`. -/
def MAX_PAGES : Nat := 10

/-- `fetch_with_pagination(url, session, max_pages)`, instrumented with the
count of continuation POSTs issued. -/
def fetch_with_pagination (sv : Server) (max_pages : Nat) : List Doc × Nat :=
  match sv.get with
  | none => ([], 0)
  | some html =>
    let r := foldDocs [] [] 0 (parse_html html)
    fetchLoop sv.post (max_pages - 1) 0 r.1 r.2.1 html

/-- The observable behavior of one `fetch_url` call: its result, the timeout
passed to each attempted request, and the sleeps taken between attempts. -/
structure FetchTrace where
  result : Option (List Char)
  timeouts : List Nat
  sleeps : List Nat
deriving DecidableEq, Repr

/-- The `for attempt in range(retries)` loop of `fetch_url`: each attempt is a
request with timeout 60; a failed non-final attempt is followed by
`time.sleep(5)`; when all attempts fail the call returns `None`. -/
def fetchUrlAux (oracle : Nat → Option (List Char)) : Nat → Nat → FetchTrace
  | _, 0 => ⟨none, [], []⟩
  | attempt, r + 1 =>
    match oracle attempt with
    | some t => ⟨some t, [60], []⟩
    | none =>
      if r = 0 then ⟨none, [60], []⟩
      else
        let rest := fetchUrlAux oracle (attempt + 1) r
        ⟨rest.result, 60 :: rest.timeouts, 5 :: rest.sleeps⟩

/-- `fetch_url(url, retries)`. -/
def fetch_url (oracle : Nat → Option (List Char)) (retries : Nat) : FetchTrace :=
  fetchUrlAux oracle 0 retries

/-- The accumulation loop of `merge_documents`:
`for doc in new_docs: if doc['id'] not in existing_ids: append, add id`. -/
def mergeLoop (ids : List (List Char)) (added : List Doc) : List Doc → List Doc
  | [] => added
  | d :: ds =>
    if d.id ∈ ids then mergeLoop ids added ds
    else mergeLoop (d.id :: ids) (added ++ [d]) ds

/-- `merge_documents(existing, new_docs)`. -/
def merge_documents (existing new_docs : List Doc) : List Doc × Nat :=
  let added := mergeLoop (existing.map Doc.id) [] new_docs
  (added ++ existing, added.length)

/-- Modelled from the claim's words for comparison with `merge_documents`:
keep every fetched record whose id does not occur in the persisted corpus
(no further restriction), prepended to the persisted corpus. -/
def merge_documents_claim (existing new_docs : List Doc) : List Doc × Nat :=
  let added := new_docs.filter (fun d => decide (d.id ∉ existing.map Doc.id))
  (added ++ existing, added.length)

/-- Generic first-occurrence-by-key filter with an initial seen set; used to
state what the accumulation loops compute. -/
def dedupBy {α : Type} (key : α → List Char) : List (List Char) → List α → List α
  | _, [] => []
  | s, x :: xs =>
    if key x ∈ s then dedupBy key s xs else x :: dedupBy key (key x :: s) xs

/-- `LANG_SUFFIXES`. -/
def LANG_SUFFIXES : List (String × String) :=
  [("uz-Cyrl", "uz_Cyrl"), ("uz", "uz"), ("ru", "ru"), ("en", "en")]

/-- The corpus file stem built in `fetch_and_merge`/`fetch_news`:
`f'{doc_type}_{lang_suffix}'` with the suffix taken from `LANG_SUFFIXES`. -/
def corpusStem (doc_type lang : String) : Option (List Char) :=
  (LANG_SUFFIXES.lookup lang).map (fun sfx => doc_type.toList ++ ('_' :: sfx.toList))

/-- Python `stem.rsplit('_', 1)`: split at the last underscore; `none` models
the single-part result that `update_metadata` skips. -/
def rsplitUnd : List Char → Option (List Char × List Char)
  | [] => none
  | c :: rest =>
    match rsplitUnd rest with
    | some (a, b) => some (c :: a, b)
    | none => if c = '_' then some ([], rest) else none

/-- `lang_suffix.replace('_', '-')`. -/
def underToDash (s : List Char) : List Char :=
  s.map (fun c => if c = '_' then '-' else c)

/-- The key derivation of `update_metadata`: `rsplit('_', 1)` then convert the
suffix back to a language code. -/
def parseStem (stem : List Char) : Option (List Char × List Char) :=
  (rsplitUnd stem).map (fun p => (p.1, underToDash p.2))

/-! ### Concrete fixtures used by the theorems -/

def docA : Doc := ⟨("a").toList, ("ta").toList, ("ua").toList⟩

def docB : Doc := ⟨("b").toList, ("tb").toList, ("ub").toList⟩

def docC : Doc := ⟨("c").toList, ("tc").toList, ("uc").toList⟩

def docD : Doc := ⟨("d").toList, ("td").toList, ("ud").toList⟩

def docDup : Doc := ⟨("7").toList, ("t").toList, ("u").toList⟩

def docE1 : Doc := ⟨("5").toList, ("x").toList, ("y").toList⟩

def docE2 : Doc := ⟨("5").toList, ("z").toList, ("w").toList⟩

def dupHtml : List Char :=
  ("<a href=\"/docs/123\">First</a> <a href=\"/docs/123\">Second</a>").toList

/-! ### Lemmas about the first-occurrence accumulation loops -/

/-- `dedupBy` only inspects membership in the seen set. -/
lemma dedupBy_congr {α : Type} (key : α → List Char) :
    ∀ (xs : List α) (s t : List (List Char)), (∀ c, c ∈ s ↔ c ∈ t) →
      dedupBy key s xs = dedupBy key t xs := by
  intro xs
  induction xs with
  | nil => intro s t _; rfl
  | cons x xs ih =>
    intro s t h
    by_cases hm : key x ∈ s
    · simp only [dedupBy, if_pos hm, if_pos ((h (key x)).mp hm)]
      exact ih s t h
    · have hm' : key x ∉ t := fun hx => hm ((h (key x)).mpr hx)
      simp only [dedupBy, if_neg hm, if_neg hm']
      rw [ih (key x :: s) (key x :: t) (fun c => by simp [h c])]

/-- Splitting the seen set: seeding with `s ++ t` is filtering the `t`-seeded
result by non-membership in `s`. -/
lemma dedupBy_append_filter {α : Type} (key : α → List Char) :
    ∀ (xs : List α) (s t : List (List Char)),
      dedupBy key (s ++ t) xs
        = (dedupBy key t xs).filter (fun x => decide (key x ∉ s)) := by
  intro xs
  induction xs with
  | nil => intro s t; rfl
  | cons x xs ih =>
    intro s t
    by_cases hs : key x ∈ s
    · have hst : key x ∈ s ++ t := List.mem_append.mpr (Or.inl hs)
      by_cases ht : key x ∈ t
      · simp only [dedupBy, if_pos hst, if_pos ht]
        exact ih s t
      · simp only [dedupBy, if_pos hst, if_neg ht, List.filter_cons]
        have hp : (decide (key x ∉ s)) = false := by simp [hs]
        rw [hp]
        simp only [Bool.false_eq_true, if_false]
        rw [← ih s (key x :: t)]
        exact dedupBy_congr key xs (s ++ t) (s ++ (key x :: t))
          (fun c => by
            by_cases hc : c = key x
            · subst hc; simp [hs]
            · simp [List.mem_append, List.mem_cons, hc])
    · by_cases ht : key x ∈ t
      · have hst : key x ∈ s ++ t := List.mem_append.mpr (Or.inr ht)
        simp only [dedupBy, if_pos hst, if_pos ht]
        exact ih s t
      · have hst : key x ∉ s ++ t := by
          simp [List.mem_append, hs, ht]
        simp only [dedupBy, if_neg hst, if_neg ht, List.filter_cons]
        have hp : (decide (key x ∉ s)) = true := by simp [hs]
        rw [hp]
        simp only [if_true]
        congr 1
        rw [← ih s (key x :: t)]
        exact dedupBy_congr key xs (key x :: (s ++ t)) (s ++ (key x :: t))
          (fun c => by simp [List.mem_append, List.mem_cons]; tauto)

/-- The merge accumulation loop computes the first-occurrence filter. -/
lemma mergeLoop_eq (ds : List Doc) :
    ∀ (s : List (List Char)) (acc : List Doc),
      mergeLoop s acc ds = acc ++ dedupBy Doc.id s ds := by
  induction ds with
  | nil => intro s acc; simp [mergeLoop, dedupBy]
  | cons d ds ih =>
    intro s acc
    by_cases h : d.id ∈ s
    · simp only [mergeLoop, dedupBy, if_pos h]
      exact ih s acc
    · simp only [mergeLoop, dedupBy, if_neg h]
      rw [ih (d.id :: s) (acc ++ [d])]
      simp

/-- A later element whose key avoids the seen set has its key in the result. -/
lemma dedupBy_key_mem {α : Type} (key : α → List Char) :
    ∀ (xs : List α) (s : List (List Char)) (x : α),
      x ∈ xs → key x ∉ s → key x ∈ (dedupBy key s xs).map key := by
  intro xs
  induction xs with
  | nil => intro s x hx; cases hx
  | cons y ys ih =>
    intro s x hx hks
    rcases List.mem_cons.mp hx with rfl | hmem
    · simp [dedupBy, if_neg hks]
    · by_cases hy : key y ∈ s
      · simpa [dedupBy, if_pos hy] using ih s x hmem hks
      · by_cases hxy : key x = key y
        · simp [dedupBy, if_neg hy, hxy]
        · have hx' : key x ∉ key y :: s := by simp [hxy, hks]
          simp only [dedupBy, if_neg hy, List.map_cons, List.mem_cons]
          exact Or.inr (ih (key y :: s) x hmem hx')

/-- If every key is already seen, nothing is kept. -/
lemma dedupBy_eq_nil {α : Type} (key : α → List Char) :
    ∀ (xs : List α) (s : List (List Char)), (∀ x ∈ xs, key x ∈ s) →
      dedupBy key s xs = [] := by
  intro xs
  induction xs with
  | nil => intro s _; rfl
  | cons x xs ih =>
    intro s h
    have hx := h x (List.mem_cons_self x xs)
    rw [dedupBy, if_pos hx]
    exact ih s (fun y hy => h y (List.mem_cons_of_mem x hy))

/-- The kept keys are distinct and avoid the initial seen set. -/
lemma dedupBy_nodup {α : Type} (key : α → List Char) :
    ∀ (xs : List α) (s : List (List Char)),
      ((dedupBy key s xs).map key).Nodup ∧ ∀ c ∈ (dedupBy key s xs).map key, c ∉ s := by
  intro xs
  induction xs with
  | nil => intro s; exact ⟨List.nodup_nil, by simp [dedupBy]⟩
  | cons x xs ih =>
    intro s
    by_cases h : key x ∈ s
    · simpa only [dedupBy, if_pos h] using ih s
    · obtain ⟨hn, hav⟩ := ih (key x :: s)
      refine ⟨?_, ?_⟩
      · simp only [dedupBy, if_neg h, List.map_cons]
        refine List.nodup_cons.mpr ⟨?_, hn⟩
        intro hmem
        exact (hav _ hmem) (List.mem_cons_self _ _)
      · intro c hc
        simp only [dedupBy, if_neg h, List.map_cons, List.mem_cons] at hc
        rcases hc with rfl | hc
        · exact h
        · intro hcs
          exact (hav c hc) (List.mem_cons_of_mem _ hcs)

/-- The extraction loop of `parse_html` computes: filter out empty-after-strip
titles, keep the first occurrence of each id, build each record once. -/
lemma parseLoop_eq (ms : List RawMatch) :
    ∀ (s : List (List Char)) (acc : List Doc),
      parseLoop s acc ms
        = acc ++ (dedupBy RawMatch.docId s
            (ms.filter (fun m => !(strip m.title).isEmpty))).map mkDoc := by
  induction ms with
  | nil => intro s acc; simp [parseLoop, dedupBy]
  | cons m ms ih =>
    intro s acc
    by_cases ht : strip m.title = []
    · have hcond : m.docId ∈ s ∨ strip m.title = [] := Or.inr ht
      have hf : (!(strip m.title).isEmpty) = false := by
        simp [ht]
      simp only [parseLoop, if_pos hcond, List.filter_cons, hf,
        Bool.false_eq_true, if_false]
      exact ih s acc
    · have hf : (!(strip m.title).isEmpty) = true := by
        simp [List.isEmpty_iff, ht]
      by_cases hm : m.docId ∈ s
      · have hcond : m.docId ∈ s ∨ strip m.title = [] := Or.inl hm
        simp only [parseLoop, if_pos hcond, List.filter_cons, hf, if_true,
          dedupBy, if_pos hm]
        exact ih s acc
      · have hcond : ¬(m.docId ∈ s ∨ strip m.title = []) := by
          simp [hm, ht]
        simp only [parseLoop, if_neg hcond, List.filter_cons, hf, if_true,
          dedupBy, if_neg hm, List.map_cons]
        rw [ih (m.docId :: s) _]
        simp [mkDoc]

/-! ### Merge Engine theorems -/

/-- C1 (amended): `merge_documents` prepends, in batch order, the fetched
records that are the first occurrence of their id within the batch and whose
id does not occur in the persisted corpus; known ids are dropped without
updating title or url, `addedCount` is the number prepended, and for persisted
`[a,b,c]` and batch `[d,b]` the result is `([d,a,b,c], 1)`. -/
theorem merge_documents_first_occurrence :
    (∀ (existing batch : List Doc),
      merge_documents existing batch =
        ((dedupBy Doc.id [] batch).filter
            (fun d => decide (d.id ∉ existing.map Doc.id)) ++ existing,
         ((dedupBy Doc.id [] batch).filter
            (fun d => decide (d.id ∉ existing.map Doc.id))).length))
    ∧ merge_documents [docA, docB, docC] [docD, docB] = ([docD, docA, docB, docC], 1) := by
  constructor
  · intro existing batch
    have h1 : mergeLoop (existing.map Doc.id) [] batch
        = dedupBy Doc.id (existing.map Doc.id) batch := by
      simpa using mergeLoop_eq batch (existing.map Doc.id) []
    have h2 : dedupBy Doc.id (existing.map Doc.id) batch
        = (dedupBy Doc.id [] batch).filter
            (fun d => decide (d.id ∉ existing.map Doc.id)) := by
      simpa using dedupBy_append_filter Doc.id batch (existing.map Doc.id) []
    simp [merge_documents, h1, h2]
  · decide

/-- C1 (counterexample): the claim's characterization — keep every fetched
record whose id is not persisted — disagrees with `merge_documents` on a batch
that repeats a new id: the code adds the record once, the claim twice. -/
theorem merge_claim_filter_refuted :
    merge_documents [] [docDup, docDup] = ([docDup], 1)
    ∧ merge_documents_claim [] [docDup, docDup] = ([docDup, docDup], 2)
    ∧ merge_documents [] [docDup, docDup] ≠ merge_documents_claim [] [docDup, docDup] := by
  refine ⟨by decide, by decide, by decide⟩

/-- C2: merging the same batch a second time, with the first result as the new
persisted corpus, adds nothing and leaves the corpus unchanged. -/
theorem merge_documents_idempotent :
    ∀ (C B : List Doc),
      merge_documents (merge_documents C B).1 B = ((merge_documents C B).1, 0) := by
  intro C B
  have e1 : (merge_documents C B).1 = dedupBy Doc.id (C.map Doc.id) B ++ C := by
    simp [merge_documents, mergeLoop_eq]
  rw [e1]
  have hall : ∀ d ∈ B, d.id ∈ ((dedupBy Doc.id (C.map Doc.id) B ++ C).map Doc.id) := by
    intro d hd
    rw [List.map_append, List.mem_append]
    by_cases hc : d.id ∈ C.map Doc.id
    · exact Or.inr hc
    · exact Or.inl (dedupBy_key_mem Doc.id B (C.map Doc.id) d hd hc)
  have e2 : mergeLoop ((dedupBy Doc.id (C.map Doc.id) B ++ C).map Doc.id) [] B = [] := by
    rw [mergeLoop_eq]
    simpa using dedupBy_eq_nil Doc.id B _ hall
  simp only [merge_documents, e2]
  simp

/-- C10: if the persisted corpus has pairwise-distinct ids, so does the merged
corpus, for any batch — including one repeating an id. -/
theorem merge_documents_nodup :
    ∀ (existing batch : List Doc), (existing.map Doc.id).Nodup →
      (((merge_documents existing batch).1).map Doc.id).Nodup := by
  intro existing batch h
  have e : (merge_documents existing batch).1
      = dedupBy Doc.id (existing.map Doc.id) batch ++ existing := by
    simp [merge_documents, mergeLoop_eq]
  rw [e, List.map_append]
  obtain ⟨hn, hav⟩ := dedupBy_nodup Doc.id batch (existing.map Doc.id)
  exact List.Nodup.append hn h (fun a ha hb => hav a ha hb)

/-- Witness for C10 at a corpus `[a]` and a batch repeating id `5`. -/
theorem merge_documents_nodup_witness :
    ([docA].map Doc.id).Nodup
    ∧ (((merge_documents [docA] [docE1, docE2]).1).map Doc.id).Nodup :=
  ⟨by decide, merge_documents_nodup [docA] [docE1, docE2] (by decide)⟩

/-! ### Record Extractor theorems -/

/-- C7: `parse_html` returns, in first-seen order, one record per matched id:
matches whose stripped title is empty are discarded, later matches of an
already-kept id are discarded (never updating the kept record), and each kept
title gets the `$` → `USD ` substitution applied exactly once; markup with two
anchors sharing an id yields exactly one record. -/
theorem parse_html_characterization :
    (∀ html : List Char,
      parse_html html
        = (dedupBy RawMatch.docId []
            ((rawMatches html).filter (fun m => !(strip m.title).isEmpty))).map mkDoc)
    ∧ parse_html dupHtml
        = [⟨("123").toList, ("First").toList, ("https://lex.uz/docs/123").toList⟩] := by
  constructor
  · intro html
    cases hb : html.isEmpty with
    | true =>
      have : html = [] := by simpa [List.isEmpty_iff] using hb
      subst this
      rfl
    | false =>
      simp only [parse_html, hb, Bool.false_eq_true, if_false]
      simpa using parseLoop_eq (rawMatches html) [] []
  · decide

/-! ### Pagination Controller lemmas -/

/-- The per-page fold never decreases the new-record count. -/
lemma foldDocs_count_le (ds : List Doc) :
    ∀ (seen : List (List Char)) (acc : List Doc) (c : Nat),
      c ≤ (foldDocs seen acc c ds).2.2 := by
  induction ds with
  | nil => intro s a c; simp [foldDocs]
  | cons d ds ih =>
    intro s a c
    by_cases h : d.id ∈ s
    · simpa only [foldDocs, if_pos h] using ih s a c
    · calc c ≤ c + 1 := Nat.le_succ c
        _ ≤ _ := by simpa only [foldDocs, if_neg h] using ih (d.id :: s) (a ++ [d]) (c + 1)

/-- If the fold reports no new records, it appended nothing to the batch. -/
lemma foldDocs_acc_eq (ds : List Doc) :
    ∀ (seen : List (List Char)) (acc : List Doc) (c : Nat),
      (foldDocs seen acc c ds).2.2 = c → (foldDocs seen acc c ds).2.1 = acc := by
  induction ds with
  | nil => intro s a c _; simp [foldDocs]
  | cons d ds ih =>
    intro s a c h
    by_cases hm : d.id ∈ s
    · rw [foldDocs, if_pos hm] at h ⊢
      exact ih s a c h
    · exfalso
      have h1 : c + 1 ≤ (foldDocs (d.id :: s) (a ++ [d]) (c + 1) ds).2.2 :=
        foldDocs_count_le ds _ _ _
      rw [foldDocs, if_neg hm] at h
      omega

/-! ### Pagination Controller theorems -/

/-- C3: if a continuation page yields zero identifiers not already
accumulated, the loop returns right after that page — the batch is unchanged
and exactly that one further POST was issued — regardless of any next-page
marker in that page's markup. -/
theorem fetchLoop_stall_terminates :
    ∀ (post : Nat → Option (List Char)) (fuel pc : Nat)
      (seen : List (List Char)) (acc : List Doc) (html html2 : List Char),
      has_next_page html = true →
      vsFalsy (extract_viewstate html).viewstate = false →
      post pc = some html2 →
      (foldDocs seen acc 0 (parse_html html2)).2.2 = 0 →
      fetchLoop post (fuel + 1) pc seen acc html = (acc, pc + 1) := by
  intro post fuel pc seen acc html html2 hnext hvs hpost hcount
  have hacc := foldDocs_acc_eq (parse_html html2) seen acc 0 hcount
  simp [fetchLoop, hnext, hvs, hpost, hcount, hacc]

def stallPage : List Char :=
  ("ucFoundActsControl_LinkButton1 id=\"__VIEWSTATE\" value=\"v1\" <a href=\"/docs/1\">A</a>").toList

def stallSeen : List (List Char) := [("1").toList]

def stallPost : Nat → Option (List Char) := fun _ => some stallPage

/-- Witness for C3: a continuation page repeating the only known id stops the
run with the batch unchanged after that single POST. -/
theorem fetchLoop_stall_terminates_witness :
    (has_next_page stallPage = true
      ∧ vsFalsy (extract_viewstate stallPage).viewstate = false
      ∧ stallPost 0 = some stallPage
      ∧ (foldDocs stallSeen [] 0 (parse_html stallPage)).2.2 = 0)
    ∧ fetchLoop stallPost 4 0 stallSeen [] stallPage = ([], 1) :=
  ⟨⟨by decide, by decide, rfl, by decide⟩,
   fetchLoop_stall_terminates stallPost 3 0 stallSeen [] stallPage stallPage
     (by decide) (by decide) rfl (by decide)⟩

/-- C4 (amended): the loop stops issuing requests exactly when the extracted
`__VIEWSTATE` token is missing or empty (the only continuation-state token the
code checks); it does not require the generator or validation tokens. -/
theorem fetchLoop_stops_on_falsy_viewstate :
    ∀ (post : Nat → Option (List Char)) (fuel pc : Nat)
      (seen : List (List Char)) (acc : List Doc) (html : List Char),
      has_next_page html = true →
      vsFalsy (extract_viewstate html).viewstate = true →
      fetchLoop post fuel pc seen acc html = (acc, pc) := by
  intro post fuel pc seen acc html hnext hvs
  cases fuel with
  | zero => rfl
  | succ n => simp [fetchLoop, hnext, hvs]

def noVsPage : List Char :=
  ("ucFoundActsControl$LinkButton1 <a href=\"/docs/3\">C</a>").toList

def noVsPost : Nat → Option (List Char) := fun _ => some noVsPage

/-- Witness for C4 (amended): a page with the next-page marker but no
`__VIEWSTATE` field ends the run with no POST issued. -/
theorem fetchLoop_stops_on_falsy_viewstate_witness :
    (has_next_page noVsPage = true
      ∧ vsFalsy (extract_viewstate noVsPage).viewstate = true)
    ∧ fetchLoop noVsPost 5 0 [] [] noVsPage = ([], 0) :=
  ⟨⟨by decide, by decide⟩,
   fetchLoop_stops_on_falsy_viewstate noVsPost 5 0 [] [] noVsPage (by decide) (by decide)⟩

def c4Page1 : List Char :=
  ("ucFoundActsControl$LinkButton1 id=\"__VIEWSTATE\" value=\"abc\" <a href=\"/docs/1\">A</a>").toList

def c4Page2 : List Char := ("<a href=\"/docs/2\">B</a>").toList

def c4Doc1 : Doc := ⟨("1").toList, ("A").toList, ("https://lex.uz/docs/1").toList⟩

def c4Doc2 : Doc := ⟨("2").toList, ("B").toList, ("https://lex.uz/docs/2").toList⟩

/-- C4 (counterexample): a page carrying the next-page marker and a non-empty
`__VIEWSTATE` but lacking `__VIEWSTATEGENERATOR` and `__EVENTVALIDATION` does
NOT stop the run: a further POST is issued (one POST total) and the next
page's record enters the batch. -/
theorem missing_tokens_post_issued :
    has_next_page c4Page1 = true
    ∧ (extract_viewstate c4Page1).generator = none
    ∧ (extract_viewstate c4Page1).validation = none
    ∧ fetch_with_pagination ⟨some c4Page1, fun _ => some c4Page2⟩ MAX_PAGES
        = ([c4Doc1, c4Doc2], 1) := by
  refine ⟨by decide, by decide, by decide, by decide⟩

/-- C8: a failed initial GET terminates the run at once with an empty batch
and no POST, whatever the rest of the server offers. -/
theorem fetch_with_pagination_initial_failure :
    ∀ (post : Nat → Option (List Char)) (max_pages : Nat),
      fetch_with_pagination ⟨none, post⟩ max_pages = ([], 0) := by
  intro post mp
  rfl

/-! ### Transport theorems -/

/-- Unfolding of one failed attempt. -/
lemma fetchUrlAux_succ_none (oracle : Nat → Option (List Char))
    (attempt r : Nat) (h : oracle attempt = none) :
    fetchUrlAux oracle attempt (r + 1)
      = if r = 0 then ⟨none, [60], []⟩
        else ⟨(fetchUrlAux oracle (attempt + 1) r).result,
              60 :: (fetchUrlAux oracle (attempt + 1) r).timeouts,
              5 :: (fetchUrlAux oracle (attempt + 1) r).sleeps⟩ := by
  rw [fetchUrlAux, h]

/-- When every attempt in the window fails, `fetch_url` makes `r` attempts of
timeout 60 with a 5-unit sleep after each non-final one and returns `None`. -/
lemma fetchUrlAux_all_fail (oracle : Nat → Option (List Char)) :
    ∀ (r attempt : Nat), (∀ k, k < r → oracle (attempt + k) = none) →
      fetchUrlAux oracle attempt r
        = ⟨none, List.replicate r 60, List.replicate (r - 1) 5⟩ := by
  intro r
  induction r with
  | zero => intro attempt _; rfl
  | succ n ih =>
    intro attempt h
    have h0 : oracle attempt = none := by simpa using h 0 (Nat.succ_pos n)
    cases n with
    | zero =>
      rw [fetchUrlAux_succ_none oracle attempt 0 h0, if_pos rfl]
      rfl
    | succ m =>
      have hrec := ih (attempt + 1) (fun k hk => by
        have hh := h (k + 1) (Nat.succ_lt_succ hk)
        rw [show attempt + 1 + k = attempt + (k + 1) by omega]
        exact hh)
      rw [fetchUrlAux_succ_none oracle attempt (m + 1) h0,
        if_neg (Nat.succ_ne_zero m), hrec]
      simp [List.replicate_succ]

/-- A successful attempt returns immediately with a single timeout-60 request
and no sleep. -/
lemma fetchUrlAux_first_success (oracle : Nat → Option (List Char))
    (attempt r : Nat) (t : List Char) (h : oracle attempt = some t) :
    fetchUrlAux oracle attempt (r + 1) = ⟨some t, [60], []⟩ := by
  simp [fetchUrlAux, h]

/-- C5 (amended): `fetch_url` is attempted up to 3 times (timeout 60 each,
sleep 5 after each failed non-final attempt) and resolves to `None` — not an
exception — after the last failure; a first-attempt success returns at once;
the pagination run's continuation POSTs are single attempts whose failure ends
the run immediately with the batch accumulated so far. -/
theorem fetch_url_retry_policy :
    ∀ (oracle : Nat → Option (List Char)),
      (oracle 0 = none → oracle 1 = none → oracle 2 = none →
        fetch_url oracle 3 = ⟨none, [60, 60, 60], [5, 5]⟩)
      ∧ (∀ t, oracle 0 = some t → fetch_url oracle 3 = ⟨some t, [60], []⟩)
      ∧ (∀ (post : Nat → Option (List Char)) (fuel pc : Nat)
          (seen : List (List Char)) (acc : List Doc) (html : List Char),
          has_next_page html = true →
          vsFalsy (extract_viewstate html).viewstate = false →
          post pc = none →
          fetchLoop post (fuel + 1) pc seen acc html = (acc, pc + 1)) := by
  intro oracle
  refine ⟨?_, ?_, ?_⟩
  · intro h0 h1 h2
    have hk : ∀ k, k < 3 → oracle (0 + k) = none := by
      intro k hk
      interval_cases k <;> simp [h0, h1, h2]
    rw [fetch_url, fetchUrlAux_all_fail oracle 3 0 hk]
    rfl
  · intro t h0
    exact fetchUrlAux_first_success oracle 0 2 t h0
  · intro post fuel pc seen acc html hnext hvs hpost
    simp [fetchLoop, hnext, hvs, hpost]

def deadOracle : Nat → Option (List Char) := fun _ => none

def c5Page : List Char :=
  ("ucFoundActsControl$LinkButton1 id=\"__VIEWSTATE\" value=\"zz\"").toList

/-- Witness for C5 (amended) at an oracle that always fails. -/
theorem fetch_url_retry_policy_witness :
    (deadOracle 0 = none ∧ deadOracle 1 = none ∧ deadOracle 2 = none
      ∧ has_next_page c5Page = true
      ∧ vsFalsy (extract_viewstate c5Page).viewstate = false)
    ∧ fetch_url deadOracle 3 = ⟨none, [60, 60, 60], [5, 5]⟩
    ∧ fetchLoop deadOracle 1 0 [] [] c5Page = ([], 1) :=
  ⟨⟨rfl, rfl, rfl, by decide, by decide⟩,
   (fetch_url_retry_policy deadOracle).1 rfl rfl rfl,
   (fetch_url_retry_policy deadOracle).2.2 deadOracle 0 0 [] [] c5Page
     (by decide) (by decide) rfl⟩

def okPage : List Char := ("<a href=\"/docs/9\">B</a>").toList

def flakyOracle : Nat → Option (List Char) :=
  fun k => if k = 0 then none else some okPage

/-- C5 (counterexample): on a transport whose first attempt fails and second
succeeds, the 3-attempt policy recovers the page (which carries a record),
but the pagination run's GET — a single attempt — leaves the run with an
empty batch: the pagination requests are not given the retry budget. -/
theorem pagination_get_not_retried :
    (fetch_url flakyOracle 3).result = some okPage
    ∧ (parse_html okPage).length = 1
    ∧ fetch_with_pagination ⟨flakyOracle 0, fun _ => none⟩ MAX_PAGES = ([], 0) := by
  refine ⟨by decide, by decide, rfl⟩

/-! ### Corpus Registry theorems -/

/-- C6: the registry's filename inversion is wrong for `uz-Cyrl`: the stored
stem `codes_uz_Cyrl` is parsed back — via `rsplit('_', 1)` — as document type
`codes_uz` with language `Cyrl`, not as `codes` with `uz-Cyrl`. -/
theorem registry_inversion_bug :
    corpusStem ("codes") ("uz-Cyrl") = some (("codes_uz_Cyrl").toList)
    ∧ parseStem (("codes_uz_Cyrl").toList)
        = some ((("codes_uz").toList), (("Cyrl").toList))
    ∧ parseStem (("codes_uz_Cyrl").toList)
        ≠ some ((("codes").toList), (("uz-Cyrl").toList)) := by
  refine ⟨by decide, by decide, by decide⟩

/-! ### Recency feed theorems -/

def news11 : List Char :=
  ("<a href=\"/docs/1\">a</a><a href=\"/docs/2\">b</a><a href=\"/docs/3\">c</a><a href=\"/docs/4\">d</a><a href=\"/docs/5\">e</a><a href=\"/docs/6\">f</a><a href=\"/docs/7\">g</a><a href=\"/docs/8\">h</a><a href=\"/docs/9\">i</a><a href=\"/docs/10\">j</a><a href=\"/docs/11\">k</a>").toList

def newsServer : Server := ⟨some news11, fun _ => none⟩

/-- C9 (amended): the recency feed goes through the same general extraction
path (`fetch_with_pagination` over `parse_html`), which matches anchors with
no marker class at all and imposes no cap: a page of 11 plain qualifying
anchors yields an 11-record batch. -/
theorem news_feed_uncapped :
    (parse_html news11).length = 11
    ∧ (fetch_with_pagination newsServer MAX_PAGES).1.length = 11 := by
  refine ⟨by decide, by decide⟩

/-- C9 (counterexample): the batch the news path obtains from a page of 11
qualifying anchors exceeds the claimed 10-record cap. -/
theorem news_cap_refuted :
    ¬ ((fetch_with_pagination newsServer MAX_PAGES).1.length ≤ 10) := by
  decide

